import Mathlib

/-
Shallow embedding of the Context Manager of the MCP-Server repository
(src/backend/app/core/context_manager.py together with the validation
schema in src/backend/app/models/pydantic_models.py).

Modelling conventions:
- Python `time.time()` values (times, deadlines, cache expiries) are `Int`.
- Python values (`Any`, JSON-serializable) are the inductive `Value`; the
  Python object `None` is `Value.null`.  A Python function whose return type
  is `Optional[Any]` is modelled as returning `Value`, with `Value.null`
  playing the role of `None` (Python cannot distinguish a stored `None`
  from an absent result, and neither does the model).
- Python dicts are association lists with distinct keys, in insertion
  order: `aset` replaces in place or appends, `aerase` models `del`,
  `alookup` models `d.get(k)` / `k in d`.
- Each `async` method is modelled as a pure state transformer; the store
  and cache locks make every operation atomic, which is the sequential
  semantics embedded here.  The Redis tier is disabled by default
  (`redis_url=None`), so only the in-memory cache path is modelled.
- Emitted notifications are returned explicitly as a list of `Event`s;
  `routeKey` is the key argument that the source passes to
  `_notify_subscribers`.
-/

namespace ContextMgr

/-- A JSON-style value; `null` is Python `None`. -/
inductive Value where
  | null
  | boolV (b : Bool)
  | intV (n : Int)
  | strV (s : String)
deriving DecidableEq, Repr

/-- One record of `_context_store`: the dict written by `set_context`
(`value`, `metadata`, `created_at`, `updated_at`). -/
structure Entry where
  value : Value
  metadata : List (String × Value)
  created_at : Int
  updated_at : Int
deriving DecidableEq, Repr

/-- Constructor arguments of `ContextManager` that the modelled paths read:
`cache_ttl` (default 300) and `max_cache_size` (default 10000). -/
structure Config where
  cache_ttl : Int
  max_cache_size : Nat
deriving DecidableEq, Repr

/-- The mutable state: `_context_store`, `_ttl_store` (key → absolute
deadline) and the in-memory `_cache` (key → (value, expiry)). -/
structure CMState where
  context_store : List (String × Entry)
  ttl_store : List (String × Int)
  cache : List (String × Value × Int)
deriving DecidableEq, Repr

def emptyState : CMState := ⟨[], [], []⟩

/-- A change notification as handed to `_notify_subscribers`.  `op` is the
`data["operation"]` field; `routeKey` is the key used for routing;
`succeeded`/`failed` carry the counts of a `bulk_update` event (0 for
single-key events, whose data has no such fields). -/
structure Event where
  op : String
  routeKey : String
  succeeded : Nat
  failed : Nat
deriving DecidableEq, Repr

/-- Dict lookup `d.get(k)`. -/
def alookup (k : String) : List (String × α) → Option α
  | [] => none
  | p :: ps => if p.1 = k then some p.2 else alookup k ps

/-- Dict write `d[k] = v`: replaces in place, else appends (insertion
order, as in a Python dict). -/
def aset (k : String) (v : α) : List (String × α) → List (String × α)
  | [] => [(k, v)]
  | p :: ps => if p.1 = k then (k, v) :: ps else p :: aset k v ps

/-- Dict delete `del d[k]` (no-op when absent, callers guard with `in`). -/
def aerase (k : String) (l : List (String × α)) : List (String × α) :=
  l.filter (fun p => decide (p.1 ≠ k))

/-- Schema check of `ContextItem` (pydantic_models.py): `key: str` and
`value: Any` are required but otherwise unconstrained (no `min_length`,
so the empty key is accepted; `None` is a valid `Any`); `ttl` is optional
with `ge=1`. -/
def validTtl : Option Int → Bool
  | none => true
  | some t => 1 ≤ t

/-- Number of entries `_update_cache` evicts when full:
`max(1, self.max_cache_size // 10)`. -/
def itemsToRemove (cfg : Config) : Nat := max 1 (cfg.max_cache_size / 10)

/-- The keys selected for eviction: `sorted(cache.keys(), key=expiry)`
truncated to `itemsToRemove`.  The source sorts the key list by looked-up
expiry; with distinct keys this equals sorting the entries by expiry and
projecting the keys, which is how it is written here. -/
def oldestKeys (cfg : Config) (cache : List (String × Value × Int)) : List String :=
  ((cache.mergeSort (fun a b => decide (a.2.2 ≤ b.2.2))).map Prod.fst).take (itemsToRemove cfg)

/-- The eviction step of `_update_cache`: when the cache has reached
`max_cache_size`, delete the `itemsToRemove` entries with the smallest
expiry timestamps. -/
def cacheEvict (cfg : Config) (cache : List (String × Value × Int)) :
    List (String × Value × Int) :=
  if cfg.max_cache_size ≤ cache.length then
    (oldestKeys cfg cache).foldl (fun c kk => aerase kk c) cache
  else cache

/-- `_update_cache` (in-memory tier): evict if full, then store
`(value, now + cache_ttl)` under the key. -/
def update_cache (cfg : Config) (now : Int) (k : String) (v : Value)
    (cache : List (String × Value × Int)) : List (String × Value × Int) :=
  aset k (v, now + cfg.cache_ttl) (cacheEvict cfg cache)

/-- `_get_from_cache` (in-memory tier): a live entry is returned
(`Value.null` stands for a returned Python `None`, which the caller cannot
tell apart from a miss); an expired entry is deleted and the call misses. -/
def get_from_cache (now : Int) (k : String) (cache : List (String × Value × Int)) :
    Value × List (String × Value × Int) :=
  match alookup k cache with
  | some (v, expiry) => if now < expiry then (v, cache) else (.null, aerase k cache)
  | none => (.null, cache)

/-- `_delete_from_cache` (in-memory tier). -/
def delete_from_cache (k : String) (cache : List (String × Value × Int)) :
    List (String × Value × Int) :=
  aerase k cache

/-- `set_context`: validate via `ContextItem`; on success store the entry,
set or clear the deadline, refresh the cache and (when `notify`) emit one
`set` event routed by the key.  A `ValidationError` is caught and reported
as `False` with no mutation. -/
def set_context (cfg : Config) (now : Int) (k : String) (v : Value)
    (ttl : Option Int) (metadata : List (String × Value)) (notify : Bool)
    (s : CMState) : Bool × CMState × List Event :=
  if validTtl ttl then
    let entry : Entry := ⟨v, metadata, now, now⟩
    let store1 := aset k entry s.context_store
    let ttl1 :=
      match ttl with
      | some t => if 0 < t then aset k (now + t) s.ttl_store else aerase k s.ttl_store
      | none => aerase k s.ttl_store
    let cache1 := update_cache cfg now k v s.cache
    let evs : List Event := if notify then [⟨"set", k, 0, 0⟩] else []
    (true, ⟨store1, ttl1, cache1⟩, evs)
  else
    (false, s, [])

/-- `_delete_context`: remove the key from the value map, the deadline map
and the cache; report `False` when absent; emit a `delete` event when
`notify`. -/
def delete_context_core (k : String) (notify : Bool) (s : CMState) :
    Bool × CMState × List Event :=
  match alookup k s.context_store with
  | none => (false, s, [])
  | some _ =>
    let s1 : CMState :=
      ⟨aerase k s.context_store, aerase k s.ttl_store, delete_from_cache k s.cache⟩
    (true, s1, if notify then [⟨"delete", k, 0, 0⟩] else [])

/-- Public `delete_context` (notify on). -/
def delete_context (k : String) (s : CMState) : Bool × CMState × List Event :=
  delete_context_core k true s

/-- The lock-protected block of `get_context`: absent key reports None;
a key whose deadline is strictly in the past is lazily deleted (without
notification) and reported None; otherwise the value is returned and the
cache refreshed. -/
def get_locked (cfg : Config) (now : Int) (k : String) (s : CMState) :
    Value × CMState :=
  match alookup k s.context_store with
  | none => (.null, s)
  | some item =>
    match alookup k s.ttl_store with
    | some d =>
      if d < now then (.null, (delete_context_core k false s).2.1)
      else (item.value, { s with cache := update_cache cfg now k item.value s.cache })
    | none => (item.value, { s with cache := update_cache cfg now k item.value s.cache })

/-- `get_context`: consult the cache when `use_cache` (a returned non-None
value is final; the lookup may drop an expired cache entry), then fall
through to the lock-protected store lookup. -/
def get_context (cfg : Config) (now : Int) (k : String) (use_cache : Bool)
    (s : CMState) : Value × CMState :=
  let cres := if use_cache then get_from_cache now k s.cache else (.null, s.cache)
  if use_cache && cres.1 ≠ .null then
    (cres.1, { s with cache := cres.2 })
  else
    get_locked cfg now k { s with cache := cres.2 }

/-- Python `key.startswith(pre)`, phrased over the character lists (so
that it evaluates inside the kernel). -/
def strStarts (k pre : String) : Bool :=
  pre.data.isPrefixOf k.data

/-- `list_keys`: keys of the value map, filtered by the given string as a
leading pattern and by `key not in ttl_store or ttl_store[key] >= now`. -/
def list_keys (now : Int) (pre : String) (s : CMState) : List String :=
  (s.context_store.map Prod.fst).filter (fun k =>
    strStarts k pre &&
      (match alookup k s.ttl_store with
       | none => true
       | some d => decide (now ≤ d)))

/-- One iteration of `_cleanup_expired_loop`: collect the keys whose
deadline is `≤ now`, then delete each through `_delete_context` with
notifications on. -/
def cleanup_expired (now : Int) (s : CMState) : CMState × List Event :=
  let expired_keys := (s.ttl_store.filter (fun p => decide (p.2 ≤ now))).map Prod.fst
  expired_keys.foldl
    (fun acc k =>
      let r := delete_context_core k true acc.1
      (r.2.1, acc.2 ++ r.2.2))
    (s, [])

/-- One element of the `operations` list of `bulk_operation`: a Python
dict whose fields may be missing (`op.get` / `op[...]`). -/
structure BulkOp where
  operation : Option String
  key : Option String
  value : Option Value
  ttl : Option Int
  metadata : Option (List (String × Value))
deriving DecidableEq, Repr

/-- Outcome of one iteration of the `bulk_operation` loop body up to the
`if success` test: the sub-operation returned `True`, returned `False`, or
raised (missing mandatory field → `KeyError`; unknown kind →
`ValueError("Unsupported operation: ...")`). -/
inductive OpOutcome where
  | ok (s : CMState)
  | failedOp (s : CMState)
  | exn (msg : String)
deriving Repr

/-- Dispatch of a single bulk sub-operation, with notifications
suppressed exactly as in the source (`notify=False`). -/
def applyOp (cfg : Config) (now : Int) (s : CMState) (op : BulkOp) : OpOutcome :=
  if op.operation = some "set" then
    match op.key, op.value with
    | some k, some v =>
      let r := set_context cfg now k v op.ttl (op.metadata.getD []) false s
      if r.1 then .ok r.2.1 else .failedOp r.2.1
    | _, _ => .exn "KeyError"
  else if op.operation = some "delete" then
    match op.key with
    | some k =>
      let r := delete_context_core k false s
      if r.1 then .ok r.2.1 else .failedOp r.2.1
    | none => .exn "KeyError"
  else .exn "Unsupported operation"

/-- The state an outcome leaves behind: a raising sub-operation leaves the
store untouched. -/
def outcomeState (s : CMState) : OpOutcome → CMState
  | .ok s1 => s1
  | .failedOp s1 => s1
  | .exn _ => s

/-- Runs a list of sub-operations that all report success, returning the
final state (`none` as soon as one does not). -/
def runOk (cfg : Config) (now : Int) : CMState → List BulkOp → Option CMState
  | s, [] => some s
  | s, op :: ops =>
    match applyOp cfg now s op with
    | .ok s1 => runOk cfg now s1 ops
    | _ => none

/-- The `results` dict of `bulk_operation`; `errors` keeps the `error`
strings in order (the source stores the offending op beside each). -/
structure BulkResults where
  succeeded : Nat
  failed : Nat
  errors : List String
deriving DecidableEq, Repr

/-- The `for op in operations` loop of `bulk_operation`.  A `False`
outcome increments `failed`; under `fail_fast` it then raises
`Exception("Operation failed and fail_fast is True")`, which the handler
records (incrementing `failed` a second time) before breaking.  A raising
operation is recorded once; the loop breaks only under `fail_fast`. -/
def bulk_loop (cfg : Config) (now : Int) (fail_fast : Bool) :
    List BulkOp → CMState → BulkResults → BulkResults × CMState
  | [], s, r => (r, s)
  | op :: ops, s, r =>
    match applyOp cfg now s op with
    | .ok s1 => bulk_loop cfg now fail_fast ops s1 { r with succeeded := r.succeeded + 1 }
    | .failedOp s1 =>
      if fail_fast then
        ({ r with failed := r.failed + 1 + 1,
                  errors := r.errors ++ ["Operation failed and fail_fast is True"] }, s1)
      else
        bulk_loop cfg now fail_fast ops s1 { r with failed := r.failed + 1 }
    | .exn m =>
      if fail_fast then
        ({ r with failed := r.failed + 1, errors := r.errors ++ [m] }, s)
      else
        bulk_loop cfg now fail_fast ops s { r with failed := r.failed + 1, errors := r.errors ++ [m] }

/-- `bulk_operation`: run the loop from zeroed counters, then emit the
single aggregate `bulk_update` event (routed with the empty key, carrying
the counts) — but only when `succeeded > 0`. -/
def bulk_operation (cfg : Config) (now : Int) (ops : List BulkOp) (fail_fast : Bool)
    (s : CMState) : BulkResults × CMState × List Event :=
  let rs := bulk_loop cfg now fail_fast ops s ⟨0, 0, []⟩
  let evs : List Event :=
    if 0 < rs.1.succeeded then [⟨"bulk_update", "", rs.1.succeeded, rs.1.failed⟩] else []
  (rs.1, rs.2, evs)

/-- A registered subscription of `subscribe_to_changes`: its queue
(identified by `id`) filed in `_subscriptions` under its key pattern
`keyPre` (the `key_prefix` argument). -/
structure Subscriber where
  id : Nat
  keyPre : String
deriving DecidableEq, Repr

/-- The routing test of `_notify_subscribers`:
`key.startswith(prefix) or not prefix`. -/
def matchesSub (k : String) (pre : String) : Bool :=
  strStarts k pre || pre == ""

/-- `_notify_subscribers`: the subscriptions whose queue receives the
event routed with key `k`. -/
def notify_subscribers (subs : List Subscriber) (k : String) : List Subscriber :=
  subs.filter (fun sb => matchesSub k sb.keyPre)

/-- A JSON document, the parse result of the snapshot file
(`orjson.loads` of what `orjson.dumps` wrote). -/
inductive Json where
  | null
  | jbool (b : Bool)
  | jnum (n : Int)
  | jstr (s : String)
  | jarr (xs : List Json)
  | jobj (fields : List (String × Json))

def encodeValue : Value → Json
  | .null => .null
  | .boolV b => .jbool b
  | .intV n => .jnum n
  | .strV s => .jstr s

def decodeValue : Json → Option Value
  | .null => some .null
  | .jbool b => some (.boolV b)
  | .jnum n => some (.intV n)
  | .jstr s => some (.strV s)
  | _ => none

def encodeMeta (md : List (String × Value)) : Json :=
  .jobj (md.map (fun p => (p.1, encodeValue p.2)))

def decodeMetaFields : List (String × Json) → Option (List (String × Value))
  | [] => some []
  | p :: ps =>
    match decodeValue p.2, decodeMetaFields ps with
    | some v, some rest => some ((p.1, v) :: rest)
    | _, _ => none

def decodeMeta : Json → Option (List (String × Value))
  | .jobj fs => decodeMetaFields fs
  | _ => none

/-- Serialization of one `_context_store` record (the dict literal of
`set_context`, as `orjson.dumps` lays it out). -/
def encodeEntry (e : Entry) : Json :=
  .jobj [("value", encodeValue e.value), ("metadata", encodeMeta e.metadata),
         ("created_at", .jnum e.created_at), ("updated_at", .jnum e.updated_at)]

/-- Typed reading of a record of the snapshot produced by the flush. -/
def decodeEntry : Json → Option Entry
  | .jobj [("value", jv), ("metadata", jm), ("created_at", .jnum c), ("updated_at", .jnum u)] =>
    match decodeValue jv, decodeMeta jm with
    | some v, some md => some ⟨v, md, c, u⟩
    | _, _ => none
  | _ => none

def encodeStore (store : List (String × Entry)) : Json :=
  .jobj (store.map (fun p => (p.1, encodeEntry p.2)))

def decodeStoreFields : List (String × Json) → Option (List (String × Entry))
  | [] => some []
  | p :: ps =>
    match decodeEntry p.2, decodeStoreFields ps with
    | some e, some rest => some ((p.1, e) :: rest)
    | _, _ => none

def decodeStore : Json → Option (List (String × Entry))
  | .jobj fs => decodeStoreFields fs
  | _ => none

def encodeTtl (ttls : List (String × Int)) : Json :=
  .jobj (ttls.map (fun p => (p.1, .jnum p.2)))

def decodeTtlFields : List (String × Json) → Option (List (String × Int))
  | [] => some []
  | (k, .jnum d) :: ps =>
    match decodeTtlFields ps with
    | some rest => some ((k, d) :: rest)
    | none => none
  | _ => none

def decodeTtl : Json → Option (List (String × Int))
  | .jobj fs => decodeTtlFields fs
  | _ => none

/-- The `snapshot` dict of `_persist_data`: a single JSON object with the
fields `context_store`, `ttl_store` and `timestamp`. -/
def encodeSnapshot (s : CMState) (now : Int) : Json :=
  .jobj [("context_store", encodeStore s.context_store),
         ("ttl_store", encodeTtl s.ttl_store),
         ("timestamp", .jnum now)]

/-- The two paths of the storage directory that `_persist_data` touches:
`context.tmp` and the canonical `context.json` (each holds a parsed
document when the file exists). -/
structure SnapshotDir where
  tmpFile : Option Json
  snapFile : Option Json

/-- Writing the temporary file (`aiofiles.open(temp_path, "w")`). -/
def writeTmp (j : Json) (fs : SnapshotDir) : SnapshotDir :=
  { fs with tmpFile := some j }

/-- The atomic `aiofiles.os.replace(temp_path, final_path)`: the
temporary file becomes the canonical file in one step. -/
def replaceTmp (fs : SnapshotDir) : SnapshotDir :=
  { tmpFile := none, snapFile := fs.tmpFile }

/-- `_persist_data`: snapshot the two maps with a timestamp, write the
temporary file, atomically rename it over the canonical file. -/
def persist_data (s : CMState) (now : Int) (fs : SnapshotDir) : SnapshotDir :=
  replaceTmp (writeTmp (encodeSnapshot s now) fs)

/-- `dict.get(field, {})` on the parsed snapshot object. -/
def jget (fields : List (String × Json)) (k : String) (d : Json) : Json :=
  match alookup k fields with
  | some v => v
  | none => d

/-- `_load_persisted_data`: a missing canonical file leaves the state
alone; otherwise the two maps are replaced by the snapshot's
`context_store` and `ttl_store` fields (defaulting to empty).  A document
that does not have the shape the flush writes is the caught-exception
path: the state is left unchanged. -/
def load_persisted_data (fs : SnapshotDir) (s : CMState) : CMState :=
  match fs.snapFile with
  | none => s
  | some (.jobj fields) =>
    match decodeStore (jget fields "context_store" (.jobj [])),
          decodeTtl (jget fields "ttl_store" (.jobj [])) with
    | some cs, some ts => { s with context_store := cs, ttl_store := ts }
    | _, _ => s
  | some _ => s

/-- One step of the Context Manager: a public `set_context`, a public
`delete_context`, a `bulk_operation`, or one sweep iteration of
`_cleanup_expired_loop`. -/
inductive Step (cfg : Config) : CMState → CMState → Prop
  | set (s : CMState) (now : Int) (k : String) (v : Value) (ttl : Option Int)
      (md : List (String × Value)) :
      Step cfg s (set_context cfg now k v ttl md true s).2.1
  | del (s : CMState) (k : String) :
      Step cfg s (delete_context k s).2.1
  | bulk (s : CMState) (now : Int) (ops : List BulkOp) (ff : Bool) :
      Step cfg s (bulk_operation cfg now ops ff s).2.1
  | sweep (s : CMState) (now : Int) :
      Step cfg s (cleanup_expired now s).1

/-- States reachable from the empty store. -/
def Reachable (cfg : Config) (s : CMState) : Prop :=
  Relation.ReflTransGen (Step cfg) emptyState s

/-- The data-model invariant: every key of the expiry map is a key of the
value store. -/
def TtlSubStore (s : CMState) : Prop :=
  ∀ k, (alookup k s.ttl_store).isSome → (alookup k s.context_store).isSome

theorem alookup_aset_self (k : String) (v : α) (l : List (String × α)) :
    alookup k (aset k v l) = some v := by
  induction l with
  | nil => simp [aset, alookup]
  | cons p ps ih =>
    by_cases h : p.1 = k
    · simp [aset, h, alookup]
    · simp [aset, h, alookup, ih]

theorem alookup_aset_ne (h : k' ≠ k) (v : α) (l : List (String × α)) :
    alookup k' (aset k v l) = alookup k' l := by
  induction l with
  | nil => simp [aset, alookup, Ne.symm h]
  | cons p ps ih =>
    by_cases hp : p.1 = k
    · subst hp
      simp [aset, alookup, Ne.symm h]
    · simp [aset, hp, alookup, ih]

theorem aerase_cons_self {k : String} {p : String × α} {ps : List (String × α)}
    (h : p.1 = k) : aerase k (p :: ps) = aerase k ps := by
  simp [aerase, h]

theorem aerase_cons_ne {k : String} {p : String × α} {ps : List (String × α)}
    (h : ¬ p.1 = k) : aerase k (p :: ps) = p :: aerase k ps := by
  simp [aerase, h]

theorem alookup_aerase_self (k : String) (l : List (String × α)) :
    alookup k (aerase k l) = none := by
  induction l with
  | nil => rfl
  | cons p ps ih =>
    by_cases h : p.1 = k
    · rw [aerase_cons_self h]
      exact ih
    · rw [aerase_cons_ne h]
      simp [alookup, h, ih]

theorem alookup_aerase_ne (h : k' ≠ k) (l : List (String × α)) :
    alookup k' (aerase k l) = alookup k' l := by
  induction l with
  | nil => rfl
  | cons p ps ih =>
    by_cases hp : p.1 = k
    · rw [aerase_cons_self hp]
      have hne : ¬ p.1 = k' := by
        rw [hp]
        exact Ne.symm h
      simp [alookup, hne, ih]
    · rw [aerase_cons_ne hp]
      simp [alookup, ih]

theorem mem_aerase {q : String × α} {k : String} {l : List (String × α)} :
    q ∈ aerase k l ↔ q ∈ l ∧ q.1 ≠ k := by
  simp [aerase, List.mem_filter]

theorem aerase_of_not_mem {k : String} {l : List (String × α)}
    (h : k ∉ l.map Prod.fst) : aerase k l = l := by
  induction l with
  | nil => rfl
  | cons p ps ih =>
    simp only [List.map_cons, List.mem_cons] at h
    push_neg at h
    have h1 : ¬ p.1 = k := fun hc => h.1 hc.symm
    rw [aerase_cons_ne h1, ih h.2]

theorem map_fst_aerase (k : String) (l : List (String × α)) :
    (aerase k l).map Prod.fst = (l.map Prod.fst).filter (fun x => decide (x ≠ k)) := by
  induction l with
  | nil => rfl
  | cons p ps ih =>
    by_cases h : p.1 = k
    · rw [aerase_cons_self h]
      simp [List.filter_cons, h, ih]
    · rw [aerase_cons_ne h]
      simp [List.filter_cons, h, ih]

theorem nodup_map_fst_aerase {k : String} {l : List (String × α)}
    (h : (l.map Prod.fst).Nodup) : ((aerase k l).map Prod.fst).Nodup := by
  rw [map_fst_aerase]
  exact h.filter _

theorem length_aerase_of_mem {k : String} {l : List (String × α)}
    (hnd : (l.map Prod.fst).Nodup) (hk : k ∈ l.map Prod.fst) :
    (aerase k l).length + 1 = l.length := by
  induction l with
  | nil => simp at hk
  | cons p ps ih =>
    simp only [List.map_cons, List.nodup_cons] at hnd
    by_cases h : p.1 = k
    · have hps : aerase k ps = ps := aerase_of_not_mem (h ▸ hnd.1)
      rw [aerase_cons_self h, hps, List.length_cons]
    · have hk' : k ∈ ps.map Prod.fst := by
        rcases List.mem_cons.mp hk with h1 | h1
        · exact absurd h1.symm h
        · exact h1
      have := ih hnd.2 hk'
      rw [aerase_cons_ne h]
      simp only [List.length_cons]
      omega

theorem length_aset_le (k : String) (v : α) (l : List (String × α)) :
    (aset k v l).length ≤ l.length + 1 := by
  induction l with
  | nil => simp [aset]
  | cons p ps ih =>
    by_cases h : p.1 = k
    · simp [aset, h]
    · simp [aset, h]
      omega

theorem get_context_no_cache (cfg : Config) (now : Int) (k : String) (s : CMState) :
    get_context cfg now k false s = get_locked cfg now k s := rfl

theorem get_context_cache_miss {now : Int} {k : String} {s : CMState}
    (cfg : Config) (h : (get_from_cache now k s.cache).1 = .null) :
    get_context cfg now k true s
      = get_locked cfg now k { s with cache := (get_from_cache now k s.cache).2 } := by
  simp [get_context, h]

theorem get_context_cache_hit {now : Int} {k : String} {s : CMState}
    (cfg : Config) (h : (get_from_cache now k s.cache).1 ≠ .null) :
    get_context cfg now k true s
      = ((get_from_cache now k s.cache).1,
         { s with cache := (get_from_cache now k s.cache).2 }) := by
  simp [get_context, h]

theorem cacheEvict_nil (cfg : Config) : cacheEvict cfg [] = [] := by
  unfold cacheEvict
  split
  · simp [oldestKeys]
  · rfl

/-- C1, counterexample: set key "a" with ttl 1 at time 0 (defaults:
caching enabled, cache_ttl 300, max cache 10000); the read at time 2 —
at or after the expiry deadline 0+1 — still returns the stored value from
the cache, where the claim demands absent. -/
theorem expiry_claim_counterexample :
    (get_context ⟨300, 10000⟩ 2 "a" true
      (set_context ⟨300, 10000⟩ 0 "a" (.intV 1) (some 1) [] true emptyState).2.1).1
      = .intV 1 := by
  rfl

/-- C2, counterexample: the schema puts no lower bound on the key length,
so `set_context` with the empty key succeeds and stores an entry, where
the claim demands a validation failure before any mutation. -/
theorem empty_key_counterexample :
    (set_context ⟨300, 10000⟩ 0 "" (.intV 5) none [] true emptyState).1 = true ∧
    alookup ""
        ((set_context ⟨300, 10000⟩ 0 "" (.intV 5) none [] true emptyState).2.1).context_store
      = some ⟨.intV 5, [], 0, 0⟩ :=
  ⟨rfl, rfl⟩

/-- C3, counterexample: a batch (fail_fast=false) of one `set` rejected
by validation (ttl 0) and two well-formed `set`s reports succeeded=2,
failed=1 — but `errors` is empty: the rejected operation contributes no
entry, where the claim demands one entry per failed operation. -/
theorem bulk_errors_counterexample :
    (bulk_operation ⟨300, 10000⟩ 0
      [⟨some "set", some "x", some (.intV 1), some 0, none⟩,
       ⟨some "set", some "b", some (.intV 2), none, none⟩,
       ⟨some "set", some "c", some (.intV 3), none, none⟩] false emptyState).1
      = ⟨2, 1, []⟩ := by
  rfl

/-- C4, counterexample: with fail_fast=true, a single operation that
reports failure (a `set` rejected by validation) is counted twice: once
when `success` is false and once more when the synthetic fail-fast
exception is caught — the claim demands it be counted exactly once. -/
theorem fail_fast_double_count_counterexample :
    (bulk_operation ⟨300, 10000⟩ 0
      [⟨some "set", some "x", some (.intV 1), some 0, none⟩] true emptyState).1
      = ⟨0, 2, ["Operation failed and fail_fast is True"]⟩ := by
  rfl

/-- C5, counterexample: a batch in which every operation failed emits no
event at all (`succeeded > 0` guards the emission), where the claim
demands exactly one aggregate event per batch. -/
theorem bulk_event_counterexample :
    (bulk_operation ⟨300, 10000⟩ 0
      [⟨some "set", some "x", some (.intV 1), some 0, none⟩] false emptyState).2.2
      = [] := by
  rfl

/-- C8: a committed `set_context` emits one change event routed by the
mutated key, a committed delete emits one delete event routed by the key,
and `_notify_subscribers` offers an event routed by key k to exactly the
registered subscriptions whose pattern is a leading substring of k or is
the empty string. -/
theorem subscription_delivery (cfg : Config) (now : Int) (k : String) (v : Value)
    (ttl : Option Int) (md : List (String × Value)) (s : CMState)
    (subs : List Subscriber) (hv : validTtl ttl = true) :
    (set_context cfg now k v ttl md true s).2.2 = [⟨"set", k, 0, 0⟩] ∧
    ((alookup k s.context_store).isSome →
      (delete_context k s).2.2 = [⟨"delete", k, 0, 0⟩]) ∧
    (∀ sb, sb ∈ notify_subscribers subs k ↔
      sb ∈ subs ∧ (strStarts k sb.keyPre = true ∨ sb.keyPre = "")) := by
  refine ⟨?_, ?_, ?_⟩
  · simp [set_context, hv]
  · intro h
    rcases hopt : alookup k s.context_store with _ | e
    · rw [hopt] at h
      simp at h
    · simp [delete_context, delete_context_core, hopt]
  · intro sb
    simp [notify_subscribers, matchesSub, List.mem_filter]

/-- Witness for C8: a subscription registered with pattern "user:"
receives the event for a mutation of "user:1" and not the event for a
mutation of "order:1". -/
theorem subscription_delivery_witness :
    (⟨0, "user:"⟩ : Subscriber) ∈ notify_subscribers [⟨0, "user:"⟩] "user:1" ∧
    (⟨0, "user:"⟩ : Subscriber) ∉ notify_subscribers [⟨0, "user:"⟩] "order:1" := by
  have h1 := (subscription_delivery ⟨300, 10000⟩ 0 "user:1" (.intV 1) none [] emptyState
    [⟨0, "user:"⟩] (by decide)).2.2 ⟨0, "user:"⟩
  have h2 := (subscription_delivery ⟨300, 10000⟩ 0 "order:1" (.intV 1) none [] emptyState
    [⟨0, "user:"⟩] (by decide)).2.2 ⟨0, "user:"⟩
  constructor
  · exact h1.mpr ⟨by simp, Or.inl (by decide)⟩
  · intro hmem
    rcases (h2.mp hmem).2 with hc | hc
    · exact absurd hc (by decide)
    · exact absurd hc (by decide)

/-- C2 (amended): `set_context` validates through the schema — any key
string (the empty one included) is accepted; a given ttl must be ≥ 1 — a
ttl ≤ 0 makes it fail (return false) before any mutation and before any
notification; a well-formed call, overwrite included, never fails and
leaves the new entry under the key, silently replacing any previous
one. -/
theorem set_context_validation (cfg : Config) (now : Int) (k : String) (v : Value)
    (t : Int) (md : List (String × Value)) (s : CMState) :
    (t ≤ 0 → set_context cfg now k v (some t) md true s = (false, s, [])) ∧
    (1 ≤ t → (set_context cfg now k v (some t) md true s).1 = true ∧
      alookup k ((set_context cfg now k v (some t) md true s).2.1).context_store
        = some ⟨v, md, now, now⟩) ∧
    ((set_context cfg now k v none md true s).1 = true ∧
      alookup k ((set_context cfg now k v none md true s).2.1).context_store
        = some ⟨v, md, now, now⟩) := by
  refine ⟨?_, ?_, ?_, ?_⟩
  · intro ht
    have hv : validTtl (some t) = false := by
      simp [validTtl]
      omega
    simp [set_context, hv]
  · intro ht
    have hv : validTtl (some t) = true := by simp [validTtl, ht]
    constructor
    · simp [set_context, hv]
    · simp [set_context, hv, alookup_aset_self]
  · simp [set_context, validTtl]
  · simp [set_context, validTtl, alookup_aset_self]

/-- Witness for C2: ttl 0 is rejected without mutation; ttl 5 is accepted
and the entry is stored. -/
theorem set_context_validation_witness :
    set_context ⟨300, 10000⟩ 0 "k" (.intV 1) (some 0) [] true emptyState
      = (false, emptyState, []) ∧
    (set_context ⟨300, 10000⟩ 0 "k" (.intV 1) (some 5) [] true emptyState).1 = true := by
  have h0 := set_context_validation ⟨300, 10000⟩ 0 "k" (.intV 1) 0 [] emptyState
  have h5 := set_context_validation ⟨300, 10000⟩ 0 "k" (.intV 1) 5 [] emptyState
  exact ⟨h0.1 (by decide), (h5.2.1 (by decide)).1⟩

/-- C5 (amended): a `bulk_operation` suppresses the per-operation
set/delete notifications of its sub-operations — every emitted event is
the aggregate one — and emits exactly one `bulk_update` event carrying
the success/failure counts when at least one operation succeeded, and no
event when every operation failed. -/
theorem bulk_event_emission (cfg : Config) (now : Int) (ops : List BulkOp)
    (ff : Bool) (s : CMState) :
    (∀ e ∈ (bulk_operation cfg now ops ff s).2.2, e.op = "bulk_update") ∧
    (0 < (bulk_operation cfg now ops ff s).1.succeeded →
      (bulk_operation cfg now ops ff s).2.2
        = [⟨"bulk_update", "", (bulk_operation cfg now ops ff s).1.succeeded,
            (bulk_operation cfg now ops ff s).1.failed⟩]) ∧
    ((bulk_operation cfg now ops ff s).1.succeeded = 0 →
      (bulk_operation cfg now ops ff s).2.2 = []) := by
  rcases hb : bulk_loop cfg now ff ops s ⟨0, 0, []⟩ with ⟨r, s1⟩
  by_cases h : 0 < r.succeeded
  · refine ⟨?_, ?_, ?_⟩
    · intro e he
      simp [bulk_operation, hb, h] at he
      rw [he]
    · intro _
      simp [bulk_operation, hb, h]
    · intro h0
      simp [bulk_operation, hb] at h0
      omega
  · refine ⟨?_, ?_, ?_⟩
    · intro e he
      simp [bulk_operation, hb, h] at he
    · intro h0
      simp [bulk_operation, hb] at h0
      omega
    · intro _
      simp [bulk_operation, hb, h]

/-- Witness for C5: a batch whose single operation succeeds emits the one
aggregate event with counts 1/0. -/
theorem bulk_event_emission_witness :
    (bulk_operation ⟨300, 10000⟩ 0 [⟨some "set", some "b", some (.intV 2), none, none⟩]
      false emptyState).2.2 = [⟨"bulk_update", "", 1, 0⟩] := by
  exact (bulk_event_emission ⟨300, 10000⟩ 0
    [⟨some "set", some "b", some (.intV 2), none, none⟩] false emptyState).2.1 (by decide)

/-- C10: a stored `None` is indistinguishable from an absent key: when
`set_context(k, None)` is accepted by validation, `get_context(k)` (cache
enabled) returns `None`, exactly the result for a key never set; and the
cache lookup hands back `None` for the cached entry, which the read path
treats as a miss, falling through to the store. -/
theorem none_value_indistinguishable (cfg : Config) (T now : Int) (k : String)
    (ttl : Option Int) (md : List (String × Value)) (s : CMState)
    (h : (set_context cfg T k .null ttl md true s).1 = true) :
    (get_context cfg now k true (set_context cfg T k .null ttl md true s).2.1).1 = .null ∧
    (get_context cfg now k true emptyState).1 = .null ∧
    (get_from_cache now k ((set_context cfg T k .null ttl md true s).2.1).cache).1
      = .null := by
  by_cases hv : validTtl ttl
  case neg =>
    exfalso
    simp [set_context, hv] at h
  case pos =>
    have hcache : ((set_context cfg T k .null ttl md true s).2.1).cache
        = aset k (.null, T + cfg.cache_ttl) (cacheEvict cfg s.cache) := by
      simp [set_context, hv, update_cache]
    have hstore : alookup k ((set_context cfg T k .null ttl md true s).2.1).context_store
        = some ⟨.null, md, T, T⟩ := by
      simp [set_context, hv, alookup_aset_self]
    have hfc : (get_from_cache now k
        ((set_context cfg T k .null ttl md true s).2.1).cache).1 = .null := by
      rw [hcache]
      simp only [get_from_cache, alookup_aset_self]
      split <;> rfl
    refine ⟨?_, by rfl, hfc⟩
    rw [get_context_cache_miss cfg hfc]
    unfold get_locked
    simp only [hstore]
    rcases httl : alookup k ((set_context cfg T k .null ttl md true s).2.1).ttl_store
      with _ | d
    · rfl
    · by_cases hlt : d < now
      · simp [hlt]
      · simp [hlt]

/-- Witness for C10: a concrete `set_context("n", None)` succeeds and the
subsequent cached read returns `None`, the never-set result. -/
theorem none_value_indistinguishable_witness :
    (get_context ⟨300, 10000⟩ 5 "n" true
      (set_context ⟨300, 10000⟩ 0 "n" .null none [] true emptyState).2.1).1 = .null ∧
    (get_context ⟨300, 10000⟩ 5 "n" true emptyState).1 = .null := by
  have h := none_value_indistinguishable ⟨300, 10000⟩ 0 5 "n" none [] emptyState (by rfl)
  exact ⟨h.1, h.2.1⟩

/-- C1 (amended): for a key set with ttl t ≥ 1 at time T into the empty
store: with the cache bypassed, `get_context` returns the stored value
for every read at or before T+t and absent for every read strictly after
T+t; the sweep removes the key exactly when it runs at or after T+t, and
a read of the swept (empty) store is absent — so the bypassed read is
absent after T+t whether or not the sweep has run.  With caching enabled
(the default), a read strictly before T+cache_ttl returns the cached
value, even at or after the expiry deadline T+t. -/
theorem expiry_behavior (cfg : Config) (T t now u : Int) (k : String) (v : Value)
    (md : List (String × Value)) (ht : 1 ≤ t) (hv : v ≠ Value.null) :
    ((get_context cfg now k false
        (set_context cfg T k v (some t) md true emptyState).2.1).1
      = if T + t < now then .null else v) ∧
    (T + t ≤ u →
      (cleanup_expired u (set_context cfg T k v (some t) md true emptyState).2.1).1
        = emptyState) ∧
    (u < T + t →
      (cleanup_expired u (set_context cfg T k v (some t) md true emptyState).2.1).1
        = (set_context cfg T k v (some t) md true emptyState).2.1) ∧
    ((get_context cfg now k false emptyState).1 = .null) ∧
    (now < T + cfg.cache_ttl →
      (get_context cfg now k true
        (set_context cfg T k v (some t) md true emptyState).2.1).1 = v) := by
  have hvt : validTtl (some t) = true := by simp [validTtl, ht]
  have h0t : (0 : Int) < t := by omega
  have hs1 : (set_context cfg T k v (some t) md true emptyState).2.1
      = ⟨[(k, ⟨v, md, T, T⟩)], [(k, T + t)], [(k, (v, T + cfg.cache_ttl))]⟩ := by
    simp [set_context, hvt, h0t, update_cache, cacheEvict_nil, aset, aerase, emptyState]
  refine ⟨?_, ?_, ?_, by rfl, ?_⟩
  · rw [get_context_no_cache, hs1]
    unfold get_locked
    simp only [alookup, if_pos rfl]
    by_cases hlt : T + t < now
    · simp [hlt]
    · simp [hlt]
  · intro hu
    rw [hs1]
    simp [cleanup_expired, hu, delete_context_core, alookup, aerase, delete_from_cache,
      emptyState]
  · intro hu
    have hnu : ¬ (T + t ≤ u) := by omega
    rw [hs1]
    simp [cleanup_expired, hnu]
  · intro hnow
    rw [hs1]
    have hfc : (get_from_cache now k [(k, (v, T + cfg.cache_ttl))]).1 = v := by
      simp [get_from_cache, alookup, hnow]
    have hne : (get_from_cache now k
        (⟨[(k, ⟨v, md, T, T⟩)], [(k, T + t)], [(k, (v, T + cfg.cache_ttl))]⟩
          : CMState).cache).1 ≠ .null := by
      rw [show (⟨[(k, ⟨v, md, T, T⟩)], [(k, T + t)], [(k, (v, T + cfg.cache_ttl))]⟩
          : CMState).cache = [(k, (v, T + cfg.cache_ttl))] from rfl, hfc]
      exact hv
    rw [get_context_cache_hit cfg hne]
    exact hfc

/-- Witness for C1: with the defaults, the bypassed read at time 2 of key
"a" (ttl 1, set at 0) is absent, and the sweep at time 1 empties the
store. -/
theorem expiry_behavior_witness :
    (get_context ⟨300, 10000⟩ 2 "a" false
      (set_context ⟨300, 10000⟩ 0 "a" (.intV 1) (some 1) [] true emptyState).2.1).1
      = .null ∧
    (cleanup_expired 1
      (set_context ⟨300, 10000⟩ 0 "a" (.intV 1) (some 1) [] true emptyState).2.1).1
      = emptyState := by
  have h := expiry_behavior ⟨300, 10000⟩ 0 1 2 1 "a" (.intV 1) [] (by decide) (by decide)
  refine ⟨?_, h.2.1 (by decide)⟩
  have h1 := h.1
  norm_num at h1
  exact h1

theorem applyOp_set_valid (cfg : Config) (now : Int) (s : CMState) (k : String)
    (v : Value) :
    applyOp cfg now s ⟨some "set", some k, some v, none, none⟩
      = .ok (set_context cfg now k v none [] false s).2.1 := by
  have hr : (set_context cfg now k v none [] false s).1 = true := by
    simp [set_context, validTtl]
  simp [applyOp, hr]

theorem applyOp_set_invalid {t1 : Int} (cfg : Config) (now : Int) (s : CMState)
    (k : String) (v : Value) (ht1 : t1 ≤ 0) :
    applyOp cfg now s ⟨some "set", some k, some v, some t1, none⟩ = .failedOp s := by
  have hv : validTtl (some t1) = false := by
    simp [validTtl]
    omega
  simp [applyOp, set_context, hv]

theorem applyOp_unsupported {opn : String} (cfg : Config) (now : Int) (s : CMState)
    (key : Option String) (value : Option Value) (ttl : Option Int)
    (md : Option (List (String × Value)))
    (h1 : opn ≠ "set") (h2 : opn ≠ "delete") :
    applyOp cfg now s ⟨some opn, key, value, ttl, md⟩ = .exn "Unsupported operation" := by
  simp [applyOp, h1, h2]

/-- C3 (amended): in a fail_fast=false batch of one malformed and two
well-formed set operations, exactly the two well-formed ones take effect
(the final state is the two sets applied in order) and the batch reports
succeeded=2, failed=1 — but the malformed operation contributes an
`errors` entry only when it raised (e.g. an unsupported operation kind);
a set rejected by validation is counted and contributes no entry. -/
theorem bulk_partial_application (cfg : Config) (now : Int) (s : CMState)
    (k1 k2 k3 : String) (v1 v2 v3 : Value) (t1 : Int) (ht1 : t1 ≤ 0) :
    (bulk_operation cfg now
      [⟨some "set", some k1, some v1, some t1, none⟩,
       ⟨some "set", some k2, some v2, none, none⟩,
       ⟨some "set", some k3, some v3, none, none⟩] false s)
      = (⟨2, 1, []⟩,
         (set_context cfg now k3 v3 none [] false
           (set_context cfg now k2 v2 none [] false s).2.1).2.1,
         [⟨"bulk_update", "", 2, 1⟩]) ∧
    (∀ opn, opn ≠ "set" → opn ≠ "delete" →
      (bulk_operation cfg now
        [⟨some opn, some k1, some v1, some t1, none⟩,
         ⟨some "set", some k2, some v2, none, none⟩,
         ⟨some "set", some k3, some v3, none, none⟩] false s)
        = (⟨2, 1, ["Unsupported operation"]⟩,
           (set_context cfg now k3 v3 none [] false
             (set_context cfg now k2 v2 none [] false s).2.1).2.1,
           [⟨"bulk_update", "", 2, 1⟩])) := by
  constructor
  · simp [bulk_operation, bulk_loop, applyOp_set_invalid cfg now s k1 v1 ht1,
      applyOp_set_valid]
  · intro opn h1 h2
    simp [bulk_operation, bulk_loop, applyOp_unsupported cfg now s _ _ _ _ h1 h2,
      applyOp_set_valid]

/-- Witness for C3: the concrete malformed-plus-two batch applies the two
good sets and reports 2/1 with no collected error. -/
theorem bulk_partial_application_witness :
    bulk_operation ⟨300, 10000⟩ 0
      [⟨some "set", some "x", some (.intV 1), some 0, none⟩,
       ⟨some "set", some "b", some (.intV 2), none, none⟩,
       ⟨some "set", some "c", some (.intV 3), none, none⟩] false emptyState
      = (⟨2, 1, []⟩,
         (set_context ⟨300, 10000⟩ 0 "c" (.intV 3) none [] false
           (set_context ⟨300, 10000⟩ 0 "b" (.intV 2) none [] false emptyState).2.1).2.1,
         [⟨"bulk_update", "", 2, 1⟩]) :=
  (bulk_partial_application ⟨300, 10000⟩ 0 emptyState "x" "b" "c"
    (.intV 1) (.intV 2) (.intV 3) 0 (by decide)).1

theorem bulk_loop_ok_append (cfg : Config) (now : Int) (ff : Bool)
    (ops : List BulkOp) :
    ∀ (pre : List BulkOp) (s sMid : CMState) (r : BulkResults),
      runOk cfg now s pre = some sMid →
      bulk_loop cfg now ff (pre ++ ops) s r
        = bulk_loop cfg now ff ops sMid { r with succeeded := r.succeeded + pre.length } := by
  intro pre
  induction pre with
  | nil =>
    intro s sMid r h
    simp [runOk] at h
    subst h
    rfl
  | cons op ops' ih =>
    intro s sMid r h
    unfold runOk at h
    rcases ha : applyOp cfg now s op with s1 | s1 | m <;> rw [ha] at h
    · rw [List.cons_append]
      simp only [bulk_loop, ha]
      rw [ih s1 sMid _ h]
      congr 1
      simp [List.length_cons]
      omega
    · exact absurd h (by simp)
    · exact absurd h (by simp)

/-- C4 (amended): with fail_fast=true, processing stops at the first
operation that does not succeed — no later operation is attempted (the
result does not depend on the remainder of the list) — and the counts
reflect only the work done up to and including that operation, whose
effect on `failed` depends on how it failed: an operation that raised is
counted once with its error collected; an operation that reported failure
is counted twice (once as a failed operation, once for the synthetic
fail-fast exception, whose message is also collected). -/
theorem bulk_fail_fast_stops (cfg : Config) (now : Int) (s sMid : CMState)
    (pre rest : List BulkOp) (bad : BulkOp)
    (hpre : runOk cfg now s pre = some sMid) :
    (∀ m, applyOp cfg now sMid bad = .exn m →
      bulk_operation cfg now (pre ++ bad :: rest) true s
        = (⟨pre.length, 1, [m]⟩, sMid,
           if 0 < pre.length then [⟨"bulk_update", "", pre.length, 1⟩] else [])) ∧
    (∀ sb, applyOp cfg now sMid bad = .failedOp sb →
      bulk_operation cfg now (pre ++ bad :: rest) true s
        = (⟨pre.length, 2, ["Operation failed and fail_fast is True"]⟩, sb,
           if 0 < pre.length then [⟨"bulk_update", "", pre.length, 2⟩] else [])) := by
  constructor
  · intro m hm
    unfold bulk_operation
    rw [bulk_loop_ok_append cfg now true (bad :: rest) pre s sMid ⟨0, 0, []⟩ hpre]
    unfold bulk_loop
    rw [hm]
    simp
  · intro sb hb
    unfold bulk_operation
    rw [bulk_loop_ok_append cfg now true (bad :: rest) pre s sMid ⟨0, 0, []⟩ hpre]
    unfold bulk_loop
    rw [hb]
    simp

/-- Witness for C4: one good set, then a validation-failing set, then a
third operation that is never attempted: the batch stops with
succeeded=1, failed=2 and the synthetic fail-fast error. -/
theorem bulk_fail_fast_stops_witness :
    bulk_operation ⟨300, 10000⟩ 0
      [⟨some "set", some "g", some (.intV 1), none, none⟩,
       ⟨some "set", some "x", some (.intV 1), some 0, none⟩,
       ⟨some "set", some "z", some (.intV 9), none, none⟩] true emptyState
      = (⟨1, 2, ["Operation failed and fail_fast is True"]⟩,
         (set_context ⟨300, 10000⟩ 0 "g" (.intV 1) none [] false emptyState).2.1,
         [⟨"bulk_update", "", 1, 2⟩]) := by
  have h := (bulk_fail_fast_stops ⟨300, 10000⟩ 0 emptyState
      (set_context ⟨300, 10000⟩ 0 "g" (.intV 1) none [] false emptyState).2.1
      [⟨some "set", some "g", some (.intV 1), none, none⟩]
      [⟨some "set", some "z", some (.intV 9), none, none⟩]
      ⟨some "set", some "x", some (.intV 1), some 0, none⟩ (by rfl)).2
      (set_context ⟨300, 10000⟩ 0 "g" (.intV 1) none [] false emptyState).2.1 (by rfl)
  simpa using h

theorem ttlSub_set (cfg : Config) (now : Int) (k : String) (v : Value)
    (ttl : Option Int) (md : List (String × Value)) (ntf : Bool) {s : CMState}
    (h : TtlSubStore s) :
    TtlSubStore (set_context cfg now k v ttl md ntf s).2.1 := by
  by_cases hv : validTtl ttl
  case neg => simpa [set_context, hv] using h
  case pos =>
    intro k0 hk0
    simp only [set_context, hv, if_true] at hk0 ⊢
    by_cases hk : k0 = k
    · subst hk
      rw [alookup_aset_self]
      rfl
    · rw [alookup_aset_ne hk]
      apply h k0
      rcases ttl with _ | t
      · simp only at hk0
        rwa [alookup_aerase_ne hk] at hk0
      · simp only at hk0
        by_cases h0 : (0 : Int) < t
        · rw [if_pos h0] at hk0
          rwa [alookup_aset_ne hk] at hk0
        · rw [if_neg h0] at hk0
          rwa [alookup_aerase_ne hk] at hk0

theorem ttlSub_delete (k : String) (ntf : Bool) {s : CMState} (h : TtlSubStore s) :
    TtlSubStore (delete_context_core k ntf s).2.1 := by
  rcases hopt : alookup k s.context_store with _ | e
  · simpa [delete_context_core, hopt] using h
  · intro k0 hk0
    simp only [delete_context_core, hopt] at hk0 ⊢
    by_cases hk : k0 = k
    · subst hk
      rw [alookup_aerase_self] at hk0
      simp at hk0
    · rw [alookup_aerase_ne hk] at hk0
      rw [alookup_aerase_ne hk]
      exact h k0 hk0

theorem ttlSub_applyOp (cfg : Config) (now : Int) (op : BulkOp) {s : CMState}
    (h : TtlSubStore s) : TtlSubStore (outcomeState s (applyOp cfg now s op)) := by
  unfold applyOp
  by_cases h1 : op.operation = some "set"
  · rw [if_pos h1]
    rcases op.key with _ | k <;> rcases op.value with _ | v
    · exact h
    · exact h
    · exact h
    · by_cases hr : (set_context cfg now k v op.ttl (op.metadata.getD []) false s).1
      · simp only [hr, if_true, outcomeState]
        exact ttlSub_set cfg now k v op.ttl (op.metadata.getD []) false h
      · simp only [Bool.not_eq_true] at hr
        simp only [hr, Bool.false_eq_true, if_false, outcomeState]
        exact ttlSub_set cfg now k v op.ttl (op.metadata.getD []) false h
  · rw [if_neg h1]
    by_cases h2 : op.operation = some "delete"
    · rw [if_pos h2]
      rcases op.key with _ | k
      · exact h
      · by_cases hr : (delete_context_core k false s).1
        · simp only [hr, if_true, outcomeState]
          exact ttlSub_delete k false h
        · simp only [Bool.not_eq_true] at hr
          simp only [hr, Bool.false_eq_true, if_false, outcomeState]
          exact ttlSub_delete k false h
    · rw [if_neg h2]
      exact h

theorem ttlSub_bulk_loop (cfg : Config) (now : Int) (ff : Bool) :
    ∀ (ops : List BulkOp) (s : CMState) (r : BulkResults), TtlSubStore s →
      TtlSubStore (bulk_loop cfg now ff ops s r).2 := by
  intro ops
  induction ops with
  | nil =>
    intro s r h
    exact h
  | cons op ops' ih =>
    intro s r h
    have hstep := ttlSub_applyOp cfg now op h
    rcases ha : applyOp cfg now s op with s1 | s1 | m <;> rw [ha] at hstep <;>
      simp only [outcomeState] at hstep <;> simp only [bulk_loop, ha]
    · exact ih s1 _ hstep
    · by_cases hff : ff = true
      · rw [if_pos hff]
        exact hstep
      · rw [if_neg hff]
        exact ih s1 _ hstep
    · by_cases hff : ff = true
      · rw [if_pos hff]
        exact h
      · rw [if_neg hff]
        exact ih s _ h

theorem ttlSub_bulk (cfg : Config) (now : Int) (ops : List BulkOp) (ff : Bool)
    {s : CMState} (h : TtlSubStore s) :
    TtlSubStore (bulk_operation cfg now ops ff s).2.1 :=
  ttlSub_bulk_loop cfg now ff ops s ⟨0, 0, []⟩ h

theorem ttlSub_foldl_del (ks : List String) :
    ∀ (acc : CMState × List Event), TtlSubStore acc.1 →
      TtlSubStore (ks.foldl (fun acc k =>
        let r := delete_context_core k true acc.1
        (r.2.1, acc.2 ++ r.2.2)) acc).1 := by
  induction ks with
  | nil =>
    intro acc h
    exact h
  | cons k ks' ih =>
    intro acc h
    simp only [List.foldl_cons]
    exact ih _ (ttlSub_delete k true h)

theorem ttlSub_cleanup (now : Int) {s : CMState} (h : TtlSubStore s) :
    TtlSubStore (cleanup_expired now s).1 :=
  ttlSub_foldl_del _ (s, []) h

/-- C6: in every state reachable from the empty store by `set_context`,
`delete_context`, `bulk_operation` and expiry-sweep steps, every key of
the expiry map is a key of the value store. -/
theorem ttl_store_subset_invariant (cfg : Config) (s : CMState)
    (h : Reachable cfg s) : TtlSubStore s := by
  induction h with
  | refl =>
    intro k hk
    simp [emptyState, alookup] at hk
  | tail _ hstep ih =>
    cases hstep with
    | set now k v ttl md => exact ttlSub_set cfg now k v ttl md true ih
    | del k => exact ttlSub_delete k true ih
    | bulk now ops ff => exact ttlSub_bulk cfg now ops ff ih
    | sweep now => exact ttlSub_cleanup now ih

/-- Witness for C6: the invariant holds in the concrete state reached by
one `set_context` with a ttl. -/
theorem ttl_store_subset_invariant_witness :
    TtlSubStore (set_context ⟨300, 10000⟩ 0 "a" (.intV 1) (some 5) [] true emptyState).2.1 :=
  ttl_store_subset_invariant ⟨300, 10000⟩ _
    (Relation.ReflTransGen.single (Step.set emptyState 0 "a" (.intV 1) (some 5) []))

theorem decodeValue_encodeValue (v : Value) : decodeValue (encodeValue v) = some v := by
  cases v <;> rfl

theorem decodeMetaFields_map (md : List (String × Value)) :
    decodeMetaFields (md.map (fun p => (p.1, encodeValue p.2))) = some md := by
  induction md with
  | nil => rfl
  | cons p ps ih => simp [decodeMetaFields, decodeValue_encodeValue, ih]

theorem decodeMeta_encodeMeta (md : List (String × Value)) :
    decodeMeta (encodeMeta md) = some md := by
  simp [encodeMeta, decodeMeta, decodeMetaFields_map]

theorem decodeEntry_encodeEntry (e : Entry) : decodeEntry (encodeEntry e) = some e := by
  rcases e with ⟨v, md, c, u⟩
  simp [encodeEntry, decodeEntry, decodeValue_encodeValue, decodeMeta_encodeMeta]

theorem decodeStoreFields_map (store : List (String × Entry)) :
    decodeStoreFields (store.map (fun p => (p.1, encodeEntry p.2))) = some store := by
  induction store with
  | nil => rfl
  | cons p ps ih => simp [decodeStoreFields, decodeEntry_encodeEntry, ih]

theorem decodeStore_encodeStore (cs : List (String × Entry)) :
    decodeStore (encodeStore cs) = some cs := by
  simp [encodeStore, decodeStore, decodeStoreFields_map]

theorem decodeTtlFields_map (ts : List (String × Int)) :
    decodeTtlFields (ts.map (fun p => (p.1, Json.jnum p.2))) = some ts := by
  induction ts with
  | nil => rfl
  | cons p ps ih => simp [decodeTtlFields, ih]

theorem decodeTtl_encodeTtl (ts : List (String × Int)) :
    decodeTtl (encodeTtl ts) = some ts := by
  simp [encodeTtl, decodeTtl, decodeTtlFields_map]

/-- C7: the flush writes the temporary file and atomically renames it, so
afterwards the canonical snapshot is the single JSON object with the
`context_store`, `ttl_store` and `timestamp` fields and no temporary file
remains; reloading it (into any startup state) restores exactly the same
key/entry map — values, metadata and timestamps included — and the same
expiry deadlines, so `list_keys` answers identically at every time and
every filter. -/
theorem persistence_round_trip (s s0 : CMState) (now : Int) (fs : SnapshotDir) :
    (persist_data s now fs).snapFile
      = some (.jobj [("context_store", encodeStore s.context_store),
                     ("ttl_store", encodeTtl s.ttl_store),
                     ("timestamp", .jnum now)]) ∧
    (persist_data s now fs).tmpFile = none ∧
    (load_persisted_data (persist_data s now fs) s0).context_store = s.context_store ∧
    (load_persisted_data (persist_data s now fs) s0).ttl_store = s.ttl_store ∧
    (∀ m pre, list_keys m pre (load_persisted_data (persist_data s now fs) s0)
      = list_keys m pre s) := by
  have hload : load_persisted_data (persist_data s now fs) s0
      = { s0 with context_store := s.context_store, ttl_store := s.ttl_store } := by
    simp [load_persisted_data, persist_data, replaceTmp, writeTmp, encodeSnapshot, jget,
      alookup, decodeStore_encodeStore, decodeTtl_encodeTtl]
  refine ⟨rfl, rfl, ?_, ?_, ?_⟩
  · rw [hload]
  · rw [hload]
  · intro m pre
    rw [hload]
    simp [list_keys]

theorem mem_map_fst_aerase {kk k : String} {l : List (String × α)} :
    kk ∈ (aerase k l).map Prod.fst ↔ kk ∈ l.map Prod.fst ∧ kk ≠ k := by
  rw [map_fst_aerase]
  simp [List.mem_filter]

theorem length_foldl_aerase :
    ∀ (ks : List String) (c : List (String × α)),
      ks.Nodup → (∀ kk ∈ ks, kk ∈ c.map Prod.fst) → (c.map Prod.fst).Nodup →
      (ks.foldl (fun c kk => aerase kk c) c).length + ks.length = c.length := by
  intro ks
  induction ks with
  | nil =>
    intro c _ _ _
    simp
  | cons k0 ks' ih =>
    intro c hnd hmem hcnd
    simp only [List.nodup_cons] at hnd
    have h0 : k0 ∈ c.map Prod.fst := hmem k0 (List.mem_cons_self k0 ks')
    have hlen := length_aerase_of_mem hcnd h0
    have hmem' : ∀ kk ∈ ks', kk ∈ (aerase k0 c).map Prod.fst := by
      intro kk hkk
      rw [mem_map_fst_aerase]
      exact ⟨hmem kk (List.mem_cons_of_mem _ hkk), fun hc => hnd.1 (hc ▸ hkk)⟩
    have := ih (aerase k0 c) hnd.2 hmem' (nodup_map_fst_aerase hcnd)
    simp only [List.foldl_cons, List.length_cons]
    omega

theorem mem_foldl_aerase :
    ∀ (ks : List String) (c : List (String × α)) (q : String × α),
      q ∈ ks.foldl (fun c kk => aerase kk c) c ↔ q ∈ c ∧ q.1 ∉ ks := by
  intro ks
  induction ks with
  | nil =>
    intro c q
    simp
  | cons k0 ks' ih =>
    intro c q
    simp only [List.foldl_cons]
    rw [ih]
    rw [mem_aerase]
    constructor
    · rintro ⟨⟨h1, h2⟩, h3⟩
      refine ⟨h1, ?_⟩
      simp [List.mem_cons, h2, h3]
    · rintro ⟨h1, h2⟩
      simp only [List.mem_cons, not_or] at h2
      exact ⟨⟨h1, h2.1⟩, h2.2⟩

theorem nodup_map_fst_inj {l : List (String × α)} (h : (l.map Prod.fst).Nodup)
    {p q : String × α} (hp : p ∈ l) (hq : q ∈ l) (he : p.1 = q.1) : p = q := by
  induction l with
  | nil => simp at hp
  | cons a as ih =>
    simp only [List.map_cons, List.nodup_cons] at h
    rcases List.mem_cons.mp hp with rfl | hp'
    · rcases List.mem_cons.mp hq with rfl | hq'
      · rfl
      · exfalso
        apply h.1
        rw [he]
        exact List.mem_map_of_mem Prod.fst hq'
    · rcases List.mem_cons.mp hq with rfl | hq'
      · exfalso
        apply h.1
        rw [← he]
        exact List.mem_map_of_mem Prod.fst hp'
      · exact ih h.2 hp' hq'

/-- C9: when a cache update finds the local cache at or above
`max_cache_size` (≥ 1), it evicts exactly `max 1 (max_cache_size / 10)`
entries, namely ones whose expiry timestamps are no larger than that of
any surviving entry, before inserting; consequently every cache update
leaves at most `max_cache_size` entries (given at most that many to start
with, and distinct cache keys). -/
theorem cache_eviction (cfg : Config) (now : Int) (k : String) (v : Value)
    (cache : List (String × Value × Int))
    (hmax : 1 ≤ cfg.max_cache_size)
    (hnd : (cache.map Prod.fst).Nodup)
    (hlen : cache.length ≤ cfg.max_cache_size) :
    (cfg.max_cache_size ≤ cache.length →
      (oldestKeys cfg cache).length = itemsToRemove cfg ∧
      (cacheEvict cfg cache).length = cache.length - itemsToRemove cfg ∧
      (∀ p ∈ cache, p.1 ∈ oldestKeys cfg cache →
        ∀ q ∈ cacheEvict cfg cache, p.2.2 ≤ q.2.2)) ∧
    (update_cache cfg now k v cache).length ≤ cfg.max_cache_size := by
  have hr1 : 1 ≤ itemsToRemove cfg := le_max_left 1 _
  have hrm : itemsToRemove cfg ≤ cfg.max_cache_size := by
    unfold itemsToRemove
    exact max_le hmax (Nat.div_le_self _ _)
  have hmain : cfg.max_cache_size ≤ cache.length →
      (oldestKeys cfg cache).length = itemsToRemove cfg ∧
      (cacheEvict cfg cache).length = cache.length - itemsToRemove cfg ∧
      (∀ p ∈ cache, p.1 ∈ oldestKeys cfg cache →
        ∀ q ∈ cacheEvict cfg cache, p.2.2 ≤ q.2.2) := by
    intro hfull
    have hrc : itemsToRemove cfg ≤ cache.length := le_trans hrm hfull
    have hperm := List.mergeSort_perm cache (fun a b => decide (a.2.2 ≤ b.2.2))
    have hpermk : List.Perm
        ((cache.mergeSort (fun a b => decide (a.2.2 ≤ b.2.2))).map Prod.fst)
        (cache.map Prod.fst) := hperm.map _
    have hSnd : ((cache.mergeSort (fun a b => decide (a.2.2 ≤ b.2.2))).map Prod.fst).Nodup :=
      hpermk.nodup_iff.mpr hnd
    have hSlen : (cache.mergeSort (fun a b => decide (a.2.2 ≤ b.2.2))).length
        = cache.length := hperm.length_eq
    have hok_len : (oldestKeys cfg cache).length = itemsToRemove cfg := by
      unfold oldestKeys
      rw [List.length_take, List.length_map, hSlen]
      exact Nat.min_eq_left hrc
    have hok_nodup : (oldestKeys cfg cache).Nodup :=
      (List.take_sublist _ _).nodup hSnd
    have hok_mem : ∀ kk ∈ oldestKeys cfg cache, kk ∈ cache.map Prod.fst := by
      intro kk hkk
      exact hpermk.subset (List.take_subset _ _ hkk)
    have hev : cacheEvict cfg cache
        = (oldestKeys cfg cache).foldl (fun c kk => aerase kk c) cache := by
      unfold cacheEvict
      rw [if_pos hfull]
    have hevlen : (cacheEvict cfg cache).length = cache.length - itemsToRemove cfg := by
      rw [hev]
      have := length_foldl_aerase (oldestKeys cfg cache) cache hok_nodup hok_mem hnd
      omega
    refine ⟨hok_len, hevlen, ?_⟩
    intro p hp hpk q hq
    have htrans : ∀ (a b c : String × Value × Int),
        decide (a.2.2 ≤ b.2.2) = true → decide (b.2.2 ≤ c.2.2) = true →
        decide (a.2.2 ≤ c.2.2) = true := by
      intro a b c hab hbc
      simp only [decide_eq_true_eq] at hab hbc ⊢
      omega
    have htotal : ∀ (a b : String × Value × Int),
        (decide (a.2.2 ≤ b.2.2) || decide (b.2.2 ≤ a.2.2)) = true := by
      intro a b
      simp only [Bool.or_eq_true, decide_eq_true_eq]
      omega
    have hsorted := List.sorted_mergeSort htrans htotal cache
    have hpS : p ∈ cache.mergeSort (fun a b => decide (a.2.2 ≤ b.2.2)) :=
      hperm.mem_iff.mpr hp
    have hpk' : p.1 ∈ ((cache.mergeSort (fun a b => decide (a.2.2 ≤ b.2.2))).take
        (itemsToRemove cfg)).map Prod.fst := by
      unfold oldestKeys at hpk
      rwa [← List.map_take] at hpk
    obtain ⟨p', hp't, hp'e⟩ := List.mem_map.mp hpk'
    have hp'S : p' ∈ cache.mergeSort (fun a b => decide (a.2.2 ≤ b.2.2)) :=
      List.take_subset _ _ hp't
    have hpp' : p = p' := nodup_map_fst_inj hSnd hpS hp'S hp'e.symm
    have hptake : p ∈ (cache.mergeSort (fun a b => decide (a.2.2 ≤ b.2.2))).take
        (itemsToRemove cfg) := hpp' ▸ hp't
    have hqev := hq
    rw [hev] at hqev
    have hqc := (mem_foldl_aerase _ _ q).mp hqev
    have hqS : q ∈ cache.mergeSort (fun a b => decide (a.2.2 ≤ b.2.2)) :=
      hperm.mem_iff.mpr hqc.1
    have hqdrop : q ∈ (cache.mergeSort (fun a b => decide (a.2.2 ≤ b.2.2))).drop
        (itemsToRemove cfg) := by
      have hsplit : q ∈ (cache.mergeSort (fun a b => decide (a.2.2 ≤ b.2.2))).take
            (itemsToRemove cfg)
          ++ (cache.mergeSort (fun a b => decide (a.2.2 ≤ b.2.2))).drop
            (itemsToRemove cfg) := by
        rw [List.take_append_drop]
        exact hqS
      rcases List.mem_append.mp hsplit with hql | hqr
      · exfalso
        apply hqc.2
        unfold oldestKeys
        rw [← List.map_take]
        exact List.mem_map_of_mem Prod.fst hql
      · exact hqr
    have hpair : List.Pairwise (fun a b => decide (a.2.2 ≤ b.2.2) = true)
        ((cache.mergeSort (fun a b => decide (a.2.2 ≤ b.2.2))).take (itemsToRemove cfg)
          ++ (cache.mergeSort (fun a b => decide (a.2.2 ≤ b.2.2))).drop
            (itemsToRemove cfg)) := by
      rw [List.take_append_drop]
      exact hsorted
    rw [List.pairwise_append] at hpair
    have := hpair.2.2 p hptake q hqdrop
    simpa using this
  refine ⟨hmain, ?_⟩
  unfold update_cache
  by_cases hfull : cfg.max_cache_size ≤ cache.length
  · have h1 := (hmain hfull).2.1
    have h2 := length_aset_le k (v, now + cfg.cache_ttl) (cacheEvict cfg cache)
    omega
  · have hcase : cacheEvict cfg cache = cache := by
      unfold cacheEvict
      rw [if_neg hfull]
    rw [hcase]
    have h2 := length_aset_le k (v, now + cfg.cache_ttl) cache
    omega

/-- Witness for C9: a full 3-entry cache with max size 3 evicts
max(1, 3/10) = 1 entry and the update leaves at most 3 entries. -/
theorem cache_eviction_witness :
    (oldestKeys ⟨300, 3⟩ [("a", (.intV 1, 10)), ("b", (.intV 2, 5)), ("c", (.intV 3, 20))]).length
      = itemsToRemove ⟨300, 3⟩ ∧
    (cacheEvict ⟨300, 3⟩ [("a", (.intV 1, 10)), ("b", (.intV 2, 5)), ("c", (.intV 3, 20))]).length
      = 2 ∧
    (update_cache ⟨300, 3⟩ 0 "d" (.intV 4)
      [("a", (.intV 1, 10)), ("b", (.intV 2, 5)), ("c", (.intV 3, 20))]).length ≤ 3 := by
  have h := cache_eviction ⟨300, 3⟩ 0 "d" (.intV 4)
    [("a", (.intV 1, 10)), ("b", (.intV 2, 5)), ("c", (.intV 3, 20))]
    (by decide) (by decide) (by decide)
  have hfull := h.1 (by decide)
  exact ⟨hfull.1, hfull.2.1, h.2⟩

end ContextMgr
